import Mathlib

/-!
Verification of the spf.rs core codec (`src/core.rs`).

The development shallowly embeds the data model, the bitmap packer, the
encoder `to_vec_u8` and the two decoders `from_vec_u8` /
`unchecked_from_vec_u8`.  Byte buffers are `List Nat` whose elements are byte
values; machine-arithmetic wrap points of the source (the `u16`/`u8` casts in
`add_character`, the `u8` product in the decoder's stage 2) are modelled with
explicit `% 65536` / `% 256`.  A Rust panic is modelled as `none`.

The `byte` module (`Byte::to_u8`, `Byte::from_u8`, `three_byte_checksum`) and
the `MAGIC_BYTES` constant live outside `src/`; they are modelled from the
spec (§6) and marked as such in their doc comments.
-/

namespace Spf

/-- Modelled from the spec: the byte/bit collaborator's `from_bits`
(`byte::Byte::to_u8`).  Bit index 0 is the bit tested for the alignment flag
(wire "bit0"), i.e. the least significant bit; the list is read LSB-first. -/
def fromBits : List Bool → Nat
  | [] => 0
  | b :: rest => (if b then 1 else 0) + 2 * fromBits rest

/-- Modelled from the spec: the byte/bit collaborator's `to_bits`
(`byte::Byte::from_u8`), producing the 8 bits of a byte LSB-first. -/
def toBits (b : Nat) : List Bool :=
  [b.testBit 0, b.testBit 1, b.testBit 2, b.testBit 3,
   b.testBit 4, b.testBit 5, b.testBit 6, b.testBit 7]

/-- Modelled from the spec: `byte::three_byte_checksum` is declared outside
`src/`; the spec only requires a deterministic 3-byte digest shared by encoder
and decoder.  Modelled as the byte sum reduced modulo 2^24, split big-endian
into three bytes. -/
def three_byte_checksum (l : List Nat) : List Nat :=
  [(l.sum % 16777216) / 65536, (l.sum % 16777216) / 256 % 256, l.sum % 256]

/-- Modelled from the spec: `MAGIC_BYTES` is declared at the crate root
(outside `src/`); the spec fixes the signature as ASCII "fsF". -/
def MAGIC_BYTES : List Nat := [102, 115, 70]

/-- Format version enum of `core.rs` (one variant). -/
inductive FormatVersion
  | FV0000
  deriving DecidableEq

/-- Alignment enum of `core.rs`. -/
inductive Alignment
  | Height
  | Width
  deriving DecidableEq

/-- The `Bitmap` struct of `core.rs`. -/
structure Bitmap where
  width : Nat
  height : Nat
  data : List Bool
  inferred : Bool
  deriving DecidableEq

/-- `Bitmap::new` of `core.rs`. -/
def Bitmap.new (width height : Nat) (data : List Bool) : Bitmap :=
  ⟨width, height, data, false⟩

/-- `Bitmap::inferred` of `core.rs`. -/
def Bitmap.mkInferred (data : List Bool) : Bitmap :=
  ⟨0, 0, data, true⟩

/-- The chunks-of-8 loop of `Bitmap::segment_into_u8s`: each chunk of up to 8
pixels becomes one byte (pixel `i` at bit index `i`, unused trailing bit
positions of a short final chunk set to `false`). -/
def segmentPixels : List Bool → List Nat
  | [] => []
  | a :: b :: c :: d :: e :: f :: g :: h :: rest =>
      fromBits [a, b, c, d, e, f, g, h] :: segmentPixels rest
  | chunk => [fromBits (chunk ++ List.replicate (8 - chunk.length) false)]

/-- `Bitmap::segment_into_u8s` of `core.rs`: packs `self.data` (all of it). -/
def Bitmap.segment_into_u8s (bm : Bitmap) : List Nat :=
  segmentPixels bm.data

/-- The `Character` struct of `core.rs` (`utf8` is the code point). -/
structure Character where
  utf8 : Nat
  size : Nat
  bitmap : Bitmap
  deriving DecidableEq

/-- `Character::new` of `core.rs`. -/
def Character.new (utf8 size : Nat) (bitmap : Bitmap) : Character :=
  ⟨utf8, size, bitmap⟩

/-- `Character::inferred` of `core.rs`: panics (`none`) unless the bitmap is
inferred. -/
def Character.mkInferred (utf8 : Nat) (bitmap : Bitmap) : Option Character :=
  if bitmap.inferred then some ⟨utf8, 0, bitmap⟩ else none

/-- The `SimplePixelFont` struct of `core.rs` (the feature-gated `cache` field
is omitted; no claim concerns it). -/
structure SimplePixelFont where
  version : FormatVersion
  alignment : Alignment
  size : Nat
  characters : List Character
  deriving DecidableEq

/-- `SimplePixelFont::new` of `core.rs`. -/
def SimplePixelFont.new (v : FormatVersion) (a : Alignment) (size : Nat) :
    SimplePixelFont :=
  ⟨v, a, size, []⟩

/-- `SimplePixelFont::add_character` of `core.rs`.  For an inferred bitmap
under `Height` alignment the width is
`(data.len() as u16 / size as u16) as u8` (wrapping casts, division by zero
panics); every other case leaves the font unchanged. -/
def add_character (f : SimplePixelFont) (c : Character) :
    Option SimplePixelFont :=
  if c.bitmap.inferred then
    if f.alignment = Alignment.Height then
      if f.size = 0 then none
      else
        some { f with characters := f.characters ++
          [Character.new c.utf8 ((c.bitmap.data.length % 65536 / f.size) % 256)
            (Bitmap.new ((c.bitmap.data.length % 65536 / f.size) % 256) f.size
              c.bitmap.data)] }
    else some f
  else some f

/-- Models the Rust standard library's `char::encode_utf8` (standard
variable-length UTF-8 encoding of a scalar value), used by `to_vec_u8`. -/
def encode_utf8 (c : Nat) : List Nat :=
  if c < 128 then [c]
  else if c < 2048 then [192 + c / 64, 128 + c % 64]
  else if c < 65536 then [224 + c / 4096, 128 + c / 64 % 64, 128 + c % 64]
  else [240 + c / 262144, 128 + c / 4096 % 64, 128 + c / 64 % 64, 128 + c % 64]

/-- The code-point emission step of `to_vec_u8`: `encode_utf8` into a zeroed
4-byte buffer, then push every byte that is not 0. -/
def pushUtf8Bytes (c : Nat) : List Nat :=
  ((encode_utf8 c) ++ List.replicate (4 - (encode_utf8 c).length) 0).filter
    (fun b => b != 0)

/-- `SimplePixelFont::to_vec_u8` of `core.rs`: magic bytes, flags byte, size
byte, character records, then the three checksum bytes inserted at
positions 5, 6, 7. -/
def to_vec_u8 (f : SimplePixelFont) : List Nat :=
  let flags := fromBits [decide (f.alignment = Alignment.Width),
    false, false, false, false, false, false, false]
  let buffer := 102 :: 115 :: 70 :: flags :: f.size ::
    (f.characters.map (fun c =>
      pushUtf8Bytes c.utf8 ++ [c.size] ++ c.bitmap.segment_into_u8s)).flatten
  buffer.take 5 ++ three_byte_checksum buffer ++ buffer.drop 5

/-- Rust's `Vec::remove(i)`: returns the removed element and the shortened
vector, panicking (`none`) when `i` is out of bounds. -/
def removeAt (xs : List Nat) (i : Nat) : Option (Nat × List Nat) :=
  if h : i < xs.length then some (xs.get ⟨i, h⟩, xs.eraseIdx i) else none

/-- Models the validity check of Rust's `String::from_utf8` (standard UTF-8
well-formedness, rejecting overlong forms, surrogates and values above
U+10FFFF), used by decoder stage 0. -/
def rustUtf8Valid : List Nat → Bool
  | [] => true
  | b :: rest =>
    if b < 128 then rustUtf8Valid rest
    else if b < 194 then false
    else if b ≤ 223 then
      match rest with
      | c1 :: r => (128 ≤ c1 && c1 ≤ 191) && rustUtf8Valid r
      | [] => false
    else if b ≤ 239 then
      match rest with
      | c1 :: c2 :: r =>
        (if b = 224 then 160 ≤ c1 && c1 ≤ 191
         else if b = 237 then 128 ≤ c1 && c1 ≤ 159
         else 128 ≤ c1 && c1 ≤ 191) &&
        (128 ≤ c2 && c2 ≤ 191) && rustUtf8Valid r
      | _ => false
    else if b ≤ 244 then
      match rest with
      | c1 :: c2 :: c3 :: r =>
        (if b = 240 then 144 ≤ c1 && c1 ≤ 191
         else if b = 244 then 128 ≤ c1 && c1 ≤ 143
         else 128 ≤ c1 && c1 ≤ 191) &&
        (128 ≤ c2 && c2 ≤ 191) && (128 ≤ c3 && c3 ≤ 191) && rustUtf8Valid r
      | _ => false
    else false

/-- Code point of the first UTF-8 sequence of a byte list (only meaningful on
lists accepted by `rustUtf8Valid`); models `.chars().next()`. -/
def utf8FirstChar : List Nat → Nat
  | [] => 0
  | b :: rest =>
    if b < 128 then b
    else if b < 224 then
      match rest with
      | c1 :: _ => (b - 192) * 64 + (c1 - 128)
      | [] => 0
    else if b < 240 then
      match rest with
      | c1 :: c2 :: _ => (b - 224) * 4096 + (c1 - 128) * 64 + (c2 - 128)
      | _ => 0
    else
      match rest with
      | c1 :: c2 :: c3 :: _ =>
        (b - 240) * 262144 + (c1 - 128) * 4096 + (c2 - 128) * 64 + (c3 - 128)
      | _ => 0

/-- Models `String::from_utf8(bytes).unwrap().chars().next().unwrap()` of
decoder stage 0: `none` is the panic of the first `unwrap`. -/
def rustStringFirstChar (l : List Nat) : Option Nat :=
  if rustUtf8Valid l then some (utf8FirstChar l) else none

/-- Stage 0 of `unchecked_from_vec_u8`: classify the lead byte by the four
bit-pattern comparisons of the source (the 2-byte comparison matches a
3-element slice against a 4-element pattern, exactly as written in the
source) and consume the indicated continuation bytes; returns the 4-byte
`utf8_bytes` buffer and the remaining input, `none` on iterator exhaustion. -/
def stage0Read (b : Nat) (rest : List Nat) : Option (List Nat × List Nat) :=
  if ([b.testBit 7] : List Bool) = [false] then
    some ([b, 0, 0, 0], rest)
  else if ([b.testBit 5, b.testBit 6, b.testBit 7] : List Bool) =
      [false, true, true, true] then
    match rest with
    | b1 :: r => some ([b, b1, 0, 0], r)
    | [] => none
  else if ([b.testBit 4, b.testBit 5, b.testBit 6, b.testBit 7] : List Bool) =
      [false, true, true, true] then
    match rest with
    | b1 :: b2 :: r => some ([b, b1, b2, 0], r)
    | _ => none
  else if ([b.testBit 3, b.testBit 4, b.testBit 5, b.testBit 6,
      b.testBit 7] : List Bool) = [false, true, true, true, true] then
    match rest with
    | b1 :: b2 :: b3 :: r => some ([b, b1, b2, b3], r)
    | _ => none
  else
    some ([0, 0, 0, 0], rest)

/-- Stage 0 composed with the code-point extraction: the decoded
`current_character.utf8` and the input remaining after the record's code
point. -/
def stage0Char (b : Nat) (rest : List Nat) : Option (Nat × List Nat) :=
  match stage0Read b rest with
  | none => none
  | some (bytes4, r) =>
    match rustStringFirstChar bytes4 with
    | none => none
    | some cp => some (cp, r)

/-- Stage 2's byte count: `((h as f32 * w as f32) / 8.0).ceil() as u8`.  For
`w, h ≤ 255` the `f32` arithmetic is exact, and the `as u8` cast saturates at
255. -/
def bytes_used_of (w h : Nat) : Nat :=
  min ((w * h + 7) / 8) 255

/-- Stage 2's padding count: `bytes_used as i32 * 8 - (h * w) as i32`, where
`h * w` is a `u8` product (wraps modulo 256). -/
def stage2_remainder (w h : Nat) : Int :=
  (bytes_used_of w h : Int) * 8 - ((w * h) % 256 : Nat)

/-- The per-bit filter of stage 2's inner loop: a bit at counter `c` is kept
unless `c ≥ limit` (with `limit = 8 - remainder` for the final byte). -/
def keepLoop (bits : List Bool) (c limit : Int) : List Bool :=
  match bits with
  | [] => []
  | b :: rest =>
    if c ≥ limit then keepLoop rest (c + 1) limit
    else b :: keepLoop rest (c + 1) limit

/-- Bits kept from the final bitmap byte in stage 2. -/
def keepLastBits (b : Nat) (remainder : Int) : List Bool :=
  keepLoop (toBits b) 0 (8 - remainder)

/-- Stage 2's unpacking of the bitmap bytes: every byte contributes its 8 bits
LSB-first, except the final byte whose bits pass the padding filter. -/
def stage2Bits : List Nat → Int → List Bool
  | [], _ => []
  | [b], r => keepLastBits b r
  | b :: rest, r => toBits b ++ stage2Bits rest r

/-- Mutable state of the decoder's scan loop: the font fields accumulated so
far, the character sub-stage, and the `current_character` fields. -/
structure DecSt where
  version : FormatVersion
  alignment : Alignment
  size : Nat
  characters : List Character
  stage : Nat
  ccUtf8 : Nat
  ccSize : Nat
  ccData : List Bool
  deriving DecidableEq

/-- Initial decoder state (`current_character` starts as the space character
with an empty, zero-sized bitmap). -/
def initDecSt : DecSt :=
  ⟨FormatVersion.FV0000, Alignment.Height, 0, [], 0, 32, 0, []⟩

/-- The scan loop of `unchecked_from_vec_u8`.  `fuel` bounds the number of
outer iterations; every iteration consumes at least one byte, so fuel equal
to the buffer length (as supplied by `unchecked_from_vec_u8`) is never
exhausted.  `none` is a panic: the inverted magic comparison
`!chunk == MAGIC_BYTES[i]` (a bitwise complement), an `unwrap` on an
exhausted iterator, or an invalid `String::from_utf8`. -/
def decodeLoop : Nat → List Nat → Nat → DecSt → Option DecSt
  | _, [], _, st => some st
  | fuel + 1, b :: rest, idx, st =>
    if idx < 3 then
      if 255 - b = MAGIC_BYTES.getD idx 0 then none
      else decodeLoop fuel rest (idx + 1) st
    else if idx = 3 then
      let a := if (toBits b).getD 0 false = false then Alignment.Height
               else Alignment.Width
      let v := if ([b.testBit 3, b.testBit 4, b.testBit 5, b.testBit 6,
          b.testBit 7] : List Bool) = [false, false, false, false] then
          FormatVersion.FV0000 else st.version
      decodeLoop fuel rest (idx + 1) { st with alignment := a, version := v }
    else if idx = 4 then
      decodeLoop fuel rest (idx + 1) { st with size := b }
    else if st.stage = 0 then
      match stage0Char b rest with
      | none => none
      | some (cp, r) =>
        decodeLoop fuel r (idx + 1) { st with ccUtf8 := cp, stage := 1 }
    else if st.stage = 1 then
      decodeLoop fuel rest (idx + 1) { st with ccSize := b, stage := 2 }
    else
      let w := if st.alignment = Alignment.Height then st.ccSize else st.size
      let h := if st.alignment = Alignment.Height then st.size else st.ccSize
      let bu := bytes_used_of w h
      let ch := Character.new st.ccUtf8 st.ccSize
      if bu = 0 then
        decodeLoop fuel rest (idx + 1)
          { st with
              stage := 0,
              ccData := [],
              characters := st.characters ++ [ch ⟨w, h, st.ccData, false⟩] }
      else if rest.length < bu - 1 then none
      else
        decodeLoop fuel (rest.drop (bu - 1)) (idx + 1)
          { st with
              stage := 0,
              ccData := [],
              characters := st.characters ++
                [ch ⟨w, h, st.ccData ++
                  stage2Bits (b :: rest.take (bu - 1)) (stage2_remainder w h),
                  false⟩] }
  | 0, _ :: _, _, _ => none

/-- `SimplePixelFont::unchecked_from_vec_u8` of `core.rs`: remove the three
checksum bytes at index 5, then run the scan loop. -/
def unchecked_from_vec_u8 (buffer : List Nat) : Option SimplePixelFont :=
  match removeAt buffer 5 with
  | none => none
  | some (_, b1) =>
    match removeAt b1 5 with
    | none => none
    | some (_, b2) =>
      match removeAt b2 5 with
      | none => none
      | some (_, stripped) =>
        match decodeLoop stripped.length stripped 0 initDecSt with
        | none => none
        | some st => some ⟨st.version, st.alignment, st.size, st.characters⟩

/-- `SimplePixelFont::from_vec_u8` of `core.rs`.  The outer `Option` is the
panic monad (`none` = panic), the inner one is the function's own return
value: `some none` models `return None` on a checksum mismatch. -/
def from_vec_u8 (buffer : List Nat) : Option (Option SimplePixelFont) :=
  match removeAt buffer 5 with
  | none => none
  | some (c0, b1) =>
    match removeAt b1 5 with
    | none => none
    | some (c1, b2) =>
      match removeAt b2 5 with
      | none => none
      | some (c2, local_buffer) =>
        if [c0, c1, c2] = three_byte_checksum local_buffer then
          (unchecked_from_vec_u8 buffer).map some
        else some none

/-- Font with one 2-byte character (U+00E9) and a 1-pixel bitmap, as produced
by the height-alignment insertion path with `size = 1`. -/
def fontC1 : SimplePixelFont :=
  ⟨FormatVersion.FV0000, Alignment.Height, 1, [⟨233, 1, ⟨1, 1, [true], false⟩⟩]⟩

/-- A bitmap whose pixel sequence (9 entries) is longer than
`width * height = 1`. -/
def bitmapOversized : Bitmap :=
  ⟨1, 1, List.replicate 9 false, false⟩

/-- Font containing `bitmapOversized`. -/
def fontOversized : SimplePixelFont :=
  ⟨FormatVersion.FV0000, Alignment.Height, 1, [⟨111, 1, bitmapOversized⟩]⟩

/-- The same font with the bitmap's data truncated to its first
`width * height` entries. -/
def fontTruncated : SimplePixelFont :=
  ⟨FormatVersion.FV0000, Alignment.Height, 1,
    [⟨111, 1, ⟨1, 1, bitmapOversized.data.take (1 * 1), false⟩⟩]⟩

/-- A `Width`-aligned font. -/
def fontWidthAligned : SimplePixelFont :=
  ⟨FormatVersion.FV0000, Alignment.Width, 4, []⟩

/-- A character carrying an inferred bitmap. -/
def charInferredW : Character :=
  ⟨111, 0, Bitmap.mkInferred [true, false]⟩

/-- Removing from a cons cell at a positive index removes from the tail. -/
theorem removeAt_cons_succ (x : Nat) (xs : List Nat) (i : Nat) :
    removeAt (x :: xs) (i + 1) =
      (removeAt xs i).map (fun p => (p.1, x :: p.2)) := by
  by_cases h : i < xs.length <;>
    simp [removeAt, h, Nat.succ_lt_succ_iff]

/-- Removing at index 0 takes the head. -/
theorem removeAt_cons_zero (x : Nat) (xs : List Nat) :
    removeAt (x :: xs) 0 = some (x, xs) := by
  simp [removeAt]

/-- Filtering the nonzero bytes of a list of nonzero bytes padded with zeros
returns the list itself. -/
theorem filter_ne_zero_append_replicate (l : List Nat) (k : Nat)
    (h : ∀ x ∈ l, x ≠ 0) :
    (l ++ List.replicate k 0).filter (fun b => b != 0) = l := by
  induction l with
  | nil =>
    simp only [List.nil_append]
    induction k with
    | zero => simp
    | succ k ih =>
      simp only [List.replicate_succ, List.filter_cons]
      simp [ih]
  | cons a t ih =>
    have ha : a ≠ 0 := h a (by simp)
    simp only [List.cons_append, List.filter_cons]
    simp [ha, ih (fun x hx => h x (by simp [hx]))]

/-- Round-trip of the byte/bit collaborator on lists of exactly 8 bits. -/
theorem toBits_fromBits (l : List Bool) (h : l.length = 8) :
    toBits (fromBits l) = l := by
  rcases l with _ | ⟨a, l⟩
  · exact absurd h (by simp)
  rcases l with _ | ⟨b, l⟩
  · exact absurd h (by simp)
  rcases l with _ | ⟨c, l⟩
  · exact absurd h (by simp)
  rcases l with _ | ⟨d, l⟩
  · exact absurd h (by simp)
  rcases l with _ | ⟨e, l⟩
  · exact absurd h (by simp)
  rcases l with _ | ⟨f, l⟩
  · exact absurd h (by simp)
  rcases l with _ | ⟨g, l⟩
  · exact absurd h (by simp)
  rcases l with _ | ⟨i, l⟩
  · exact absurd h (by simp)
  rcases l with _ | ⟨j, l⟩
  · cases a <;> cases b <;> cases c <;> cases d <;> cases e <;> cases f <;>
      cases g <;> cases i <;> decide
  · exact absurd h (by simp)

/-- The counter filter of stage 2 keeps exactly the first `limit - c` bits. -/
theorem keepLoop_eq_take (l : List Bool) :
    ∀ c limit : Int, keepLoop l c limit = l.take (limit - c).toNat := by
  induction l with
  | nil => intro c limit; simp [keepLoop]
  | cons b rest ih =>
    intro c limit
    simp only [keepLoop]
    split_ifs with h
    · rw [ih]
      have h1 : (limit - c).toNat = 0 := by omega
      have h2 : (limit - (c + 1)).toNat = 0 := by omega
      simp [h1, h2]
    · rw [ih]
      have h1 : (limit - c).toNat = (limit - (c + 1)).toNat + 1 := by omega
      rw [h1, List.take_succ_cons]

/-- The final-byte filter of stage 2 keeps the first `8 - remainder` bits. -/
theorem keepLastBits_eq_take (b : Nat) (r : Int) :
    keepLastBits b r = (toBits b).take (8 - r).toNat := by
  rw [keepLastBits, keepLoop_eq_take]
  norm_num

/-- Stage 2's unpacking is a prefix of the full bit expansion: all bits of
the bytes except the last `remainder` bits (for remainders between 0 and
8). -/
theorem stage2Bits_eq_take (bytes : List Nat) (r : Int) (h0 : 0 ≤ r)
    (h8 : r ≤ 8) :
    stage2Bits bytes r =
      ((bytes.map toBits).flatten).take (8 * bytes.length - r.toNat) := by
  induction bytes with
  | nil => simp [stage2Bits]
  | cons b rest ih =>
    cases rest with
    | nil =>
      rw [show stage2Bits [b] r = keepLastBits b r from rfl,
        keepLastBits_eq_take]
      have hh : (8 - r).toNat = 8 * [b].length - r.toNat := by simp; omega
      rw [hh]
      simp
    | cons c rest2 =>
      rw [show stage2Bits (b :: c :: rest2) r =
        toBits b ++ stage2Bits (c :: rest2) r from rfl, ih]
      rw [show ((b :: c :: rest2).map toBits).flatten =
        toBits b ++ ((c :: rest2).map toBits).flatten from rfl]
      rw [List.take_append_eq_append_take]
      have hb : (toBits b).length = 8 := rfl
      have htk : 8 * (b :: c :: rest2).length - r.toNat ≥ 8 := by
        simp; omega
      rw [List.take_of_length_le (by omega : (toBits b).length ≤
        8 * (b :: c :: rest2).length - r.toNat)]
      have harith : 8 * (b :: c :: rest2).length - r.toNat -
          (toBits b).length = 8 * (c :: rest2).length - r.toNat := by
        simp; omega
      rw [harith]

/-- Every list of at least 8 elements starts with 8 explicit elements. -/
theorem cons8_of_length (l : List Bool) (h : 8 ≤ l.length) :
    ∃ a b c d e f g i t, l = a :: b :: c :: d :: e :: f :: g :: i :: t := by
  rcases l with _ | ⟨a, l⟩
  · exact absurd h (by simp)
  rcases l with _ | ⟨b, l⟩
  · exact absurd h (by simp)
  rcases l with _ | ⟨c, l⟩
  · exact absurd h (by simp)
  rcases l with _ | ⟨d, l⟩
  · exact absurd h (by simp)
  rcases l with _ | ⟨e, l⟩
  · exact absurd h (by simp)
  rcases l with _ | ⟨f, l⟩
  · exact absurd h (by simp)
  rcases l with _ | ⟨g, l⟩
  · exact absurd h (by simp)
  rcases l with _ | ⟨i, l⟩
  · exact absurd h (by simp)
  exact ⟨a, b, c, d, e, f, g, i, l, rfl⟩

/-- A short, nonempty pixel list packs to a single byte padded with zeros. -/
theorem segmentPixels_short (l : List Bool) (h0 : l ≠ [])
    (h8 : l.length ≤ 8) :
    segmentPixels l =
      [fromBits (l ++ List.replicate (8 - l.length) false)] := by
  rcases l with _ | ⟨a, l⟩
  · exact absurd rfl h0
  rcases l with _ | ⟨b, l⟩
  · simp [segmentPixels]
  rcases l with _ | ⟨c, l⟩
  · simp [segmentPixels]
  rcases l with _ | ⟨d, l⟩
  · simp [segmentPixels]
  rcases l with _ | ⟨e, l⟩
  · simp [segmentPixels]
  rcases l with _ | ⟨f, l⟩
  · simp [segmentPixels]
  rcases l with _ | ⟨g, l⟩
  · simp [segmentPixels]
  rcases l with _ | ⟨i, l⟩
  · simp [segmentPixels]
  have h9 : (a :: b :: c :: d :: e :: f :: g :: i :: l).length =
      l.length + 8 := by simp
  rw [h9] at h8
  have ht : l = [] := List.length_eq_zero.mp (by omega)
  subst ht
  show fromBits [a, b, c, d, e, f, g, i] :: segmentPixels [] = _
  simp [segmentPixels]

/-- Length of the packed output, by strong induction on the pixel count. -/
theorem segmentPixels_length_le :
    ∀ (n : Nat) (l : List Bool), l.length ≤ n →
      (segmentPixels l).length = (l.length + 7) / 8 := by
  intro n
  induction n with
  | zero =>
    intro l hl
    have hnil : l = [] := List.length_eq_zero.mp (Nat.le_zero.mp hl)
    subst hnil
    simp [segmentPixels]
  | succ n ih =>
    intro l hl
    rcases eq_or_ne l [] with rfl | h0
    · simp [segmentPixels]
    · by_cases h8 : l.length ≤ 8
      · rw [segmentPixels_short l h0 h8]
        have h1 : 0 < l.length := List.length_pos.mpr h0
        simp
        omega
      · obtain ⟨a, b, c, d, e, f, g, i, t, rfl⟩ :=
          cons8_of_length l (by omega)
        simp only [List.length_cons] at hl h8 ⊢
        rw [show segmentPixels (a :: b :: c :: d :: e :: f :: g :: i :: t) =
          fromBits [a, b, c, d, e, f, g, i] :: segmentPixels t from rfl]
        rw [List.length_cons, ih t (by omega)]
        omega

/-- Length of the packed output: exactly `ceil(N / 8)` bytes. -/
theorem segmentPixels_length (l : List Bool) :
    (segmentPixels l).length = (l.length + 7) / 8 :=
  segmentPixels_length_le l.length l le_rfl

/-- Bit expansion of the packed bytes: the original pixels followed by the
zero padding of the final byte. -/
theorem segmentPixels_join_le :
    ∀ (n : Nat) (l : List Bool), l.length ≤ n →
      ((segmentPixels l).map toBits).flatten =
        l ++ List.replicate ((l.length + 7) / 8 * 8 - l.length) false := by
  intro n
  induction n with
  | zero =>
    intro l hl
    have hnil : l = [] := List.length_eq_zero.mp (Nat.le_zero.mp hl)
    subst hnil
    simp [segmentPixels]
  | succ n ih =>
    intro l hl
    rcases eq_or_ne l [] with rfl | h0
    · simp [segmentPixels]
    · by_cases h8 : l.length ≤ 8
      · rw [segmentPixels_short l h0 h8]
        have h1 : 0 < l.length := List.length_pos.mpr h0
        have h2 : (l ++ List.replicate (8 - l.length) false).length = 8 := by
          simp
          omega
        have h3 : (l.length + 7) / 8 * 8 - l.length = 8 - l.length := by
          omega
        simp only [List.map_cons, List.map_nil, List.flatten_cons,
          List.flatten_nil, List.append_nil]
        rw [toBits_fromBits _ h2, h3]
      · obtain ⟨a, b, c, d, e, f, g, i, t, rfl⟩ :=
          cons8_of_length l (by omega)
        simp only [List.length_cons] at hl h8 ⊢
        rw [show segmentPixels (a :: b :: c :: d :: e :: f :: g :: i :: t) =
          fromBits [a, b, c, d, e, f, g, i] :: segmentPixels t from rfl]
        simp only [List.map_cons, List.flatten_cons]
        rw [toBits_fromBits [a, b, c, d, e, f, g, i] rfl, ih t (by omega)]
        have hpad : (t.length + 1 + 1 + 1 + 1 + 1 + 1 + 1 + 1 + 7) / 8 * 8 -
            (t.length + 1 + 1 + 1 + 1 + 1 + 1 + 1 + 1) =
            (t.length + 7) / 8 * 8 - t.length := by
          omega
        rw [hpad]
        simp

/-- Bit expansion of the packed bytes, stated without the induction bound. -/
theorem segmentPixels_join (l : List Bool) :
    ((segmentPixels l).map toBits).flatten =
      l ++ List.replicate ((l.length + 7) / 8 * 8 - l.length) false :=
  segmentPixels_join_le l.length l le_rfl

/-- Claim C5: packing a pixel sequence of length `N` produces exactly
`ceil(N / 8)` bytes whose bit expansion is the pixels followed by zeroed
trailing bit positions, and stage 2's unpacking with the padding remainder
`ceil(N / 8) * 8 - N` recovers the original `N` pixels exactly, in order. -/
theorem c5_bit_packing_roundtrip (data : List Bool) :
    (segmentPixels data).length = (data.length + 7) / 8 ∧
    ((segmentPixels data).map toBits).flatten =
      data ++ List.replicate ((data.length + 7) / 8 * 8 - data.length)
        false ∧
    stage2Bits (segmentPixels data)
      (((data.length + 7) / 8 * 8 - data.length : Nat) : Int) = data := by
  refine ⟨segmentPixels_length data, segmentPixels_join data, ?_⟩
  rw [stage2Bits_eq_take _ _ (by positivity) (by omega),
    segmentPixels_join data, segmentPixels_length data,
    Int.toNat_natCast]
  have h2 : 8 * ((data.length + 7) / 8) -
      ((data.length + 7) / 8 * 8 - data.length) = data.length := by
    omega
  rw [h2]
  exact List.take_left data _

/-- Claim C1 (code bug): a font built purely through the height-alignment
insertion path from the single character U+00E9 (a 2-byte UTF-8 code point)
with a 1-pixel inferred bitmap does not round-trip: decoding its encoding
panics instead of returning the font. -/
theorem c1_roundtrip_fails_on_two_byte_utf8 :
    Character.mkInferred 233 (Bitmap.mkInferred [true]) =
      some ⟨233, 0, Bitmap.mkInferred [true]⟩ ∧
    add_character (SimplePixelFont.new FormatVersion.FV0000 Alignment.Height 1)
      ⟨233, 0, Bitmap.mkInferred [true]⟩ = some fontC1 ∧
    from_vec_u8 (to_vec_u8 fontC1) = none ∧
    from_vec_u8 (to_vec_u8 fontC1) ≠ some (some fontC1) := by
  refine ⟨by decide, by decide, by decide, by decide⟩

/-- Claim C2 (code bug): a buffer whose first three bytes `[0, 0, 0]` differ
from the magic signature is not rejected: the unchecked decode parses it into
a font, and the checked decode (with a matching checksum) returns that font.
The inverted comparison `!chunk == MAGIC_BYTES[i]` panics only when a byte
equals the bitwise complement of the magic byte, as the complement byte 153
shows. -/
theorem c2_wrong_magic_accepted :
    ([0, 0, 0] : List Nat) ≠ MAGIC_BYTES ∧
    unchecked_from_vec_u8 [0, 0, 0, 0, 0, 9, 9, 9] =
      some ⟨FormatVersion.FV0000, Alignment.Height, 0, []⟩ ∧
    from_vec_u8 [0, 0, 0, 0, 0, 0, 0, 0] =
      some (some ⟨FormatVersion.FV0000, Alignment.Height, 0, []⟩) ∧
    unchecked_from_vec_u8 [153, 115, 70, 0, 1, 0, 0, 0] = none := by
  refine ⟨by decide, by decide, by decide, by decide⟩

/-- Claim C3 (code bug): byte 195 = `0b11000011` matches the 2-byte lead
pattern `110xxxxx`, but stage 0 decodes the record `[195, 169]` (UTF-8 for
U+00E9) to code point 0 while leaving the continuation byte 169 unconsumed,
instead of yielding code point 233 with both bytes consumed. -/
theorem c3_two_byte_lead_misdecoded :
    Nat.testBit 195 7 = true ∧ Nat.testBit 195 6 = true ∧
    Nat.testBit 195 5 = false ∧
    stage0Char 195 [169] = some (0, [169]) ∧
    stage0Char 195 [169] ≠ some (233, []) := by
  refine ⟨by decide, by decide, by decide, by decide, by decide⟩

/-- Claim C4: on every buffer of length at least 8 (written as its first
eight bytes followed by an arbitrary tail), the checked decode returns `None`
exactly when the three bytes extracted at positions 5, 6, 7 differ from the
checksum recomputed over the buffer with those bytes removed; no panic is
raised on a mismatch, and on a match the checked decode returns the result of
the unchecked decode. -/
theorem c4_checksum_gate (b0 b1 b2 b3 b4 c0 c1 c2 : Nat) (rest : List Nat) :
    (from_vec_u8 ([b0, b1, b2, b3, b4, c0, c1, c2] ++ rest) = some none ↔
      [c0, c1, c2] ≠ three_byte_checksum ([b0, b1, b2, b3, b4] ++ rest)) ∧
    ([c0, c1, c2] = three_byte_checksum ([b0, b1, b2, b3, b4] ++ rest) →
      from_vec_u8 ([b0, b1, b2, b3, b4, c0, c1, c2] ++ rest) =
        (unchecked_from_vec_u8
          ([b0, b1, b2, b3, b4, c0, c1, c2] ++ rest)).map some) := by
  have key : from_vec_u8 ([b0, b1, b2, b3, b4, c0, c1, c2] ++ rest) =
      if [c0, c1, c2] = three_byte_checksum ([b0, b1, b2, b3, b4] ++ rest) then
        (unchecked_from_vec_u8
          ([b0, b1, b2, b3, b4, c0, c1, c2] ++ rest)).map some
      else some none := by
    simp [from_vec_u8, removeAt_cons_succ, removeAt_cons_zero]
  constructor
  · rw [key]
    split_ifs with hc
    · simp only [hc, ne_eq, not_true_eq_false, iff_false]
      cases hu : unchecked_from_vec_u8
          ([b0, b1, b2, b3, b4, c0, c1, c2] ++ rest) <;>
        simp [hu]
    · simpa using hc
  · intro hc
    rw [key, if_pos hc]

/-- Witness for `c4_checksum_gate`: a concrete 8-byte buffer whose stored
checksum matches, so the checked decode returns the unchecked decode's
result. -/
theorem c4_checksum_gate_witness :
    from_vec_u8 ([102, 115, 70, 0, 0, 0, 1, 31] ++ []) =
      (unchecked_from_vec_u8 ([102, 115, 70, 0, 0, 0, 1, 31] ++ [])).map
        some ∧
    from_vec_u8 ([102, 115, 70, 0, 0, 0, 1, 31] ++ []) =
      some (some ⟨FormatVersion.FV0000, Alignment.Height, 0, []⟩) := by
  have h := (c4_checksum_gate 102 115 70 0 0 0 1 31 []).2 (by decide)
  exact ⟨h, by rw [h]; decide⟩

/-- Claim C6 (code bug): the encoder does not ignore pixel entries beyond
`width * height`; a bitmap with 9 pixels but `width * height = 1` encodes
differently from the same font with the data truncated to 1 entry. -/
theorem c6_trailing_pixels_not_ignored :
    bitmapOversized.width * bitmapOversized.height <
      bitmapOversized.data.length ∧
    to_vec_u8 fontOversized ≠ to_vec_u8 fontTruncated := by
  refine ⟨by decide, by decide⟩

/-- Claim C7, counterexample: the code point U+0000 contributes no byte to the
output, although its standard UTF-8 encoding is the single byte 0. -/
theorem c7_nul_emits_no_bytes :
    pushUtf8Bytes 0 = [] ∧ encode_utf8 0 = [0] := by
  refine ⟨by decide, by decide⟩

/-- Claim C7, as amended: for every Unicode scalar value other than U+0000,
the encoder emits exactly the standard variable-length UTF-8 byte sequence of
the code point, which uses between 1 and 4 bytes. -/
theorem c7_utf8_emission (c : Nat) (h0 : c ≠ 0) (h1 : c < 1114112)
    (h2 : ¬(55296 ≤ c ∧ c ≤ 57343)) :
    pushUtf8Bytes c = encode_utf8 c ∧
    1 ≤ (encode_utf8 c).length ∧ (encode_utf8 c).length ≤ 4 := by
  unfold pushUtf8Bytes encode_utf8
  split_ifs with ha hb hc
  · exact ⟨filter_ne_zero_append_replicate _ _ (by
      intro x hx; simp at hx; omega), by simp, by simp⟩
  · exact ⟨filter_ne_zero_append_replicate _ _ (by
      intro x hx; simp at hx; rcases hx with rfl | rfl <;> omega),
      by simp, by simp⟩
  · exact ⟨filter_ne_zero_append_replicate _ _ (by
      intro x hx; simp at hx; rcases hx with rfl | rfl | rfl <;> omega),
      by simp, by simp⟩
  · exact ⟨filter_ne_zero_append_replicate _ _ (by
      intro x hx; simp at hx; rcases hx with rfl | rfl | rfl | rfl <;> omega),
      by simp, by simp⟩

/-- Witness for `c7_utf8_emission` at the concrete code point 97. -/
theorem c7_utf8_emission_witness :
    pushUtf8Bytes 97 = encode_utf8 97 ∧
    1 ≤ (encode_utf8 97).length ∧ (encode_utf8 97).length ≤ 4 :=
  c7_utf8_emission 97 (by decide) (by decide) (by decide)

/-- Claim C8: adding a character with an inferred bitmap to a `Width`-aligned
font is a no-op: no panic, and the font (all fields) is returned unchanged. -/
theorem c8_width_alignment_noop (f : SimplePixelFont) (c : Character)
    (h1 : f.alignment = Alignment.Width) (h2 : c.bitmap.inferred = true) :
    add_character f c = some f := by
  simp [add_character, h1, h2]

/-- Witness for `c8_width_alignment_noop` on a concrete font and character. -/
theorem c8_width_alignment_noop_witness :
    add_character fontWidthAligned charInferredW = some fontWidthAligned :=
  c8_width_alignment_noop fontWidthAligned charInferredW rfl rfl

/-- Claim C9: every buffer shorter than 8 bytes makes both decode entry
points panic while removing the checksum bytes at index 5, rather than
returning `None` or a font. -/
theorem c9_short_buffer_panics (buffer : List Nat) (h : buffer.length < 8) :
    from_vec_u8 buffer = none ∧ unchecked_from_vec_u8 buffer = none := by
  rcases buffer with _ | ⟨a, _ | ⟨b, _ | ⟨c, _ | ⟨d, _ | ⟨e, _ | ⟨f, _ | ⟨g,
    _ | ⟨i, t⟩⟩⟩⟩⟩⟩⟩⟩
  all_goals first
    | (exfalso; simp at h; omega)
    | (exact ⟨by simp [from_vec_u8, removeAt_cons_succ, removeAt_cons_zero,
          removeAt],
        by simp [unchecked_from_vec_u8, removeAt_cons_succ,
          removeAt_cons_zero, removeAt]⟩)

/-- Witness for `c9_short_buffer_panics` at the empty buffer. -/
theorem c9_short_buffer_panics_witness :
    from_vec_u8 [] = none ∧ unchecked_from_vec_u8 [] = none :=
  c9_short_buffer_panics [] (by decide)

/-- Claim C10: stage 2 derives the padding count from the `u8` product of
width and height, so whenever `width * height` exceeds 255 the remainder
differs from the one computed with the exact product. -/
theorem c10_stage2_remainder_overflow (w h : Nat) (_hw : w ≤ 255)
    (_hh : h ≤ 255) (hwh : 255 < w * h) :
    stage2_remainder w h ≠ (bytes_used_of w h : Int) * 8 - (w * h : Int) := by
  simp only [stage2_remainder, bytes_used_of]
  omega

/-- Witness for `c10_stage2_remainder_overflow` at `w = h = 16`. -/
theorem c10_stage2_remainder_overflow_witness :
    stage2_remainder 16 16 ≠
      (bytes_used_of 16 16 : Int) * 8 - ((16 * 16 : Nat) : Int) :=
  c10_stage2_remainder_overflow 16 16 (by decide) (by decide) (by decide)

end Spf
